import Mathlib

/-!
Verification of the TeensyTSLogger firmware core (`src/main.cpp`) against its
natural-language specification.  The C++ functions are shallowly embedded as
executable Lean definitions over `Nat` / `Int` / `ℚ` / `List Char`; machine
integer wrap-around is modelled with explicit `% 2^w`.
-/

namespace TSLogger

/-- `OCH_BUF_SIZE` from main.cpp: capacity of the telemetry buffer. -/
def OCH_BUF_SIZE : Nat := 2948

/-- `MAX_CHANNELS` from main.cpp: maximum parsed channels. -/
def MAX_CHANNELS : Nat := 300

/-! ## CRC32 (main.cpp `crc32`) -/

/-- One iteration of the inner `for` loop of `crc32`:
`crc = (crc & 1) ? ((crc >> 1) ^ 0xEDB88320) : (crc >> 1)`. -/
def crcBitStep (crc : Nat) : Nat :=
  if crc % 2 = 1 then (crc / 2) ^^^ 0xEDB88320 else crc / 2

/-- Per-byte update of `crc32`: `crc ^= byte` followed by eight bit steps. -/
def crcByteStep (crc b : Nat) : Nat :=
  crcBitStep^[8] (crc ^^^ b)

/-- main.cpp `crc32`: register starts at all-ones, bytes folded in, final
value bit-complemented (within 32 bits). -/
def crc32 (data : List Nat) : Nat :=
  (data.foldl crcByteStep 0xFFFFFFFF) ^^^ 0xFFFFFFFF

/-- The ASCII bytes of the string "123456789". -/
def crcTestVector : List Nat := "123456789".toList.map Char.toNat

/-- Modelled from the spec (§4.1): one message bit folded into a
CRC-32/ISO-HDLC register LSB-first — shift right, XOR with polynomial
0xEDB88320 when the shifted-out register bit differs from the message
bit. -/
def crcRefBitStep (crc bit : Nat) : Nat :=
  if crc % 2 = bit % 2 then crc / 2 else (crc / 2) ^^^ 0xEDB88320

/-- The `n` lowest bits of a byte, LSB first, folded into the register. -/
def crcRefBits : Nat → Nat → Nat → Nat
  | 0, crc, _ => crc
  | n + 1, crc, b => crcRefBits n (crcRefBitStep crc (b % 2)) (b / 2)

/-- Modelled from the spec (§4.1): CRC-32/ISO-HDLC — "polynomial 0xEDB88320
applied LSB-first, register initialized to all-ones, final value
bit-complemented", processing each byte bit by bit. -/
def crc32_iso_hdlc (data : List Nat) : Nat :=
  (data.foldl (fun crc b => crcRefBits 8 crc b) 0xFFFFFFFF) ^^^ 0xFFFFFFFF

/-! ## Telemetry poll (main.cpp `requestOCH`)

The receive loop is modelled by its observable input: `avail` is the sequence
of bytes the device makes available before the overall deadline expires.  The
loop reads at most `toRead = blockSize + 7` of them (`rx < toRead`); the
result is `none` on failure and `some data` when the blob was copied into
`ochBuffer`. -/

def requestOCH (blockSize : Nat) (avail : List Nat) : Option (List Nat) :=
  let rx := avail.take (blockSize + 7)
  if rx.length = 0 then none
  else if blockSize + 3 ≤ rx.length ∧ rx.getD 2 255 = 0 then
    some ((rx.drop 3).take blockSize)
  else none

/-! ## Channel descriptors and blob decoding (main.cpp `TypeCode`, `Channel`,
`decodeChannel`)

Strings are embedded as `List Char`; the float fields `mul`/`add` and the
decoded value are embedded as exact rationals (the C code computes in IEEE
float32; integer extraction is exact, and the affine map is modelled with
exact arithmetic). -/

inductive TypeCode where
  | TC_U08 | TC_S08
  | TC_U16 | TC_S16
  | TC_U32 | TC_S32
  | TC_F32
  | TC_UNKNOWN
  deriving DecidableEq, Repr

open TypeCode

/-- Field width in bytes for each type code (1/2/4; `TC_UNKNOWN` reads
nothing — the `switch` default leaves `raw = 0`). -/
def width : TypeCode → Nat
  | TC_U08 | TC_S08 => 1
  | TC_U16 | TC_S16 => 2
  | TC_U32 | TC_S32 => 4
  | TC_F32 => 4
  | TC_UNKNOWN => 0

structure Channel where
  name   : List Char
  unit   : List Char
  offset : Nat
  tc     : TypeCode
  mul    : ℚ
  add    : ℚ
  deriving DecidableEq, Repr

structure DLChannel where
  label   : List Char
  chanIdx : Nat
  isFloat : Bool
  deriving DecidableEq, Repr

/-- Little-endian read of `n` bytes starting at index `off` (out-of-range
bytes read as 0), mirroring `memcpy(&v, blob + offset, n)` on the
little-endian target. -/
def readLE (blob : List Nat) (off : Nat) : Nat → Nat
  | 0 => 0
  | n + 1 => blob.getD off 0 + 256 * readLE blob (off + 1) n

/-- Little-endian value of a byte list (head is the least significant byte). -/
def interpLE : List Nat → Nat
  | [] => 0
  | b :: bs => b + 256 * interpLE bs

/-- Two's-complement reinterpretation of an unsigned `bits`-bit value. -/
def toSigned (n bits : Nat) : ℤ :=
  if n < 2 ^ (bits - 1) then (n : ℤ) else (n : ℤ) - 2 ^ bits

/-- Exact value of an IEEE-754 binary32 bit pattern.  Non-finite patterns
(exponent 255: infinities/NaNs) have no rational value and are mapped to 0. -/
def f32FromBits (bits : Nat) : ℚ :=
  let s : ℚ := if bits / 2 ^ 31 % 2 = 1 then -1 else 1
  let e : Nat := bits / 2 ^ 23 % 256
  let m : Nat := bits % 2 ^ 23
  if e = 255 then 0
  else if e = 0 then s * (m : ℚ) / 2 ^ 149
  else s * (2 ^ 23 + (m : ℚ)) * 2 ^ e / 2 ^ 150

/-- main.cpp `decodeChannel`: switch on the type code, read the field at
`ch.offset` little-endian, convert, then `raw * ch.mul + ch.add`. -/
def decodeChannel (blob : List Nat) (ch : Channel) : ℚ :=
  let raw : ℚ :=
    match ch.tc with
    | TC_U08 => (readLE blob ch.offset 1 : ℚ)
    | TC_S08 => ((toSigned (readLE blob ch.offset 1) 8 : ℤ) : ℚ)
    | TC_U16 => (readLE blob ch.offset 2 : ℚ)
    | TC_S16 => ((toSigned (readLE blob ch.offset 2) 16 : ℤ) : ℚ)
    | TC_U32 => (readLE blob ch.offset 4 : ℚ)
    | TC_S32 => ((toSigned (readLE blob ch.offset 4) 32 : ℤ) : ℚ)
    | TC_F32 => f32FromBits (readLE blob ch.offset 4)
    | TC_UNKNOWN => 0
  raw * ch.mul + ch.add

/-- Modelled from the spec (§4.4): `decode` "reads `width(channel.typeCode)`
bytes at `channel.offset` from the buffer, interprets them as the designated
little-endian integer or IEEE-754 float, converts to float, returns
`raw * channel.scale + channel.bias`".  Stated over the extracted sub-buffer
to compare with the pointer-arithmetic implementation. -/
def decode_spec (buffer : List Nat) (ch : Channel) : ℚ :=
  let field := (buffer.drop ch.offset).take (width ch.tc)
  let raw : ℚ :=
    match ch.tc with
    | TC_U08 | TC_U16 | TC_U32 => (interpLE field : ℚ)
    | TC_S08 => ((toSigned (interpLE field) 8 : ℤ) : ℚ)
    | TC_S16 => ((toSigned (interpLE field) 16 : ℤ) : ℚ)
    | TC_S32 => ((toSigned (interpLE field) 32 : ℤ) : ℚ)
    | TC_F32 => f32FromBits (interpLE field)
    | TC_UNKNOWN => 0
  raw * ch.mul + ch.add

/-! ## INI parser (main.cpp `trimRight`, `readLine`, `consumeField`,
`strToTC`, `parseChannelLine`, `findChannelByName`, `parseINI`) -/

/-- Blank chars skipped by the parser's pointer walks (`' '` and tab). -/
def isWS (c : Char) : Bool := c = ' ' || c = '\t'

/-- The chars stripped by main.cpp `trimRight`. -/
def isTrimWS (c : Char) : Bool := c = ' ' || c = '\t' || c = '\r' || c = '\n'

/-- main.cpp `trimRight`: strip trailing blanks/CR/LF. -/
def trimRight (s : List Char) : List Char :=
  (s.reverse.dropWhile isTrimWS).reverse

/-- C `isspace` set used by `atoi`/`atof`. -/
def isSpaceC (c : Char) : Bool :=
  c = ' ' || c = '\t' || c = '\n' || c = '\x0b' || c = '\x0c' || c = '\r'

/-- Value of the leading decimal digits of `s` (0 if there are none). -/
def digitsVal (s : List Char) : Nat :=
  (s.takeWhile Char.isDigit).foldl (fun acc c => 10 * acc + (c.toNat - 48)) 0

/-- C `atoi`: skip whitespace, optional sign, leading digits (0 when there
are no digits). -/
def atoiInt (s : List Char) : Int :=
  let s1 := s.dropWhile isSpaceC
  match s1 with
  | '-' :: rest => -(digitsVal rest : Int)
  | '+' :: rest => (digitsVal rest : Int)
  | _ => (digitsVal s1 : Int)

/-- The `(uint16_t)` cast: reduce an `int` modulo 2^16. -/
def u16 (i : Int) : Nat := (i % 65536).toNat

/-- Exponent part of a C float literal (text after `e`/`E`). -/
def expOf (s : List Char) : Int :=
  match s with
  | '-' :: r => -(digitsVal r : Int)
  | '+' :: r => (digitsVal r : Int)
  | _ => (digitsVal s : Int)

/-- C `atof` on the grammar the INI uses: optional sign, integer digits,
optional fraction, optional decimal exponent; exact rational value (the C
code rounds to `double` and then to `float`). An empty or unparsable string
yields 0. -/
def atofQ (s : List Char) : ℚ :=
  let s1 := s.dropWhile isSpaceC
  let sgn : ℚ := match s1 with
    | '-' :: _ => -1
    | _ => 1
  let s2 : List Char := match s1 with
    | '-' :: r => r
    | '+' :: r => r
    | _ => s1
  let ip := s2.takeWhile Char.isDigit
  let s3 := s2.dropWhile Char.isDigit
  let fp : List Char := match s3 with
    | '.' :: r => r.takeWhile Char.isDigit
    | _ => []
  let s4 : List Char := match s3 with
    | '.' :: r => r.dropWhile Char.isDigit
    | _ => s3
  let ex : Int := match s4 with
    | 'e' :: r => expOf r
    | 'E' :: r => expOf r
    | _ => 0
  sgn * ((digitsVal ip * 10 ^ fp.length + digitsVal fp : ℚ) / 10 ^ fp.length)
    * (10 : ℚ) ^ ex

/-- main.cpp `strToTC`: fixed alias table from type tokens to type codes. -/
def strToTC (t : List Char) : TypeCode :=
  if t = "U08".toList ∨ t = "UBYTE".toList then TC_U08
  else if t = "S08".toList ∨ t = "BYTE".toList then TC_S08
  else if t = "U16".toList ∨ t = "UINT".toList then TC_U16
  else if t = "S16".toList ∨ t = "INT".toList then TC_S16
  else if t = "U32".toList ∨ t = "ULONG".toList then TC_U32
  else if t = "S32".toList ∨ t = "LONG".toList then TC_S32
  else if t = "F32".toList ∨ t = "FLOAT".toList then TC_F32
  else TC_UNKNOWN

/-- Scanner core of `consumeField`: consume chars up to the closing
delimiter (closing quote when `quoted`, else a comma, which is left in
place); at most `cap` of them are stored, the rest are consumed and
dropped. -/
def scanField (quoted : Bool) : List Char → Nat → List Char × List Char
  | [], _ => ([], [])
  | c :: cs, cap =>
    if quoted ∧ c = '"' then ([], cs)
    else if ¬quoted ∧ c = ',' then ([], c :: cs)
    else
      let sr := scanField quoted cs (cap - 1)
      (if 0 < cap then c :: sr.1 else sr.1, sr.2)

/-- main.cpp `consumeField`: skip blanks, read one (possibly quoted)
comma-delimited field storing at most `cap` chars, right-trim it, then skip
blanks and one trailing comma. -/
def consumeField (l : List Char) (cap : Nat) : List Char × List Char :=
  let l1 := l.dropWhile isWS
  let raw_rest : List Char × List Char := match l1 with
    | '"' :: r => scanField true r cap
    | _ => scanField false l1 cap
  let rest1 := raw_rest.2.dropWhile isWS
  let rest2 : List Char := match rest1 with
    | ',' :: r => r
    | _ => rest1
  (trimRight raw_rest.1, rest2)

/-- The name-copying loop of `parseChannelLine`: copy the non-blank chars of
the text before `=`, stopping once 23 chars (`sizeof(ch.name) - 1`) are
stored. -/
def copyName : List Char → Nat → List Char
  | [], _ => []
  | _ :: _, 0 => []
  | c :: cs, k + 1 => if isWS c then copyName cs (k + 1) else c :: copyName cs k

/-- main.cpp `parseChannelLine`: parse
`name = scalar, TYPE, OFFSET, "UNIT", MUL, ADD[, ...]` into a `Channel`;
`none` is `return false` (the line is skipped, not fatal). -/
def parseChannelLine (line : List Char) : Option Channel :=
  let pre := line.takeWhile (· ≠ '=')
  match line.dropWhile (· ≠ '=') with
  | [] => none
  | _ :: afterEq =>
    let nm := copyName pre 23
    if nm = [] then none
    else
      let p0 := afterEq.dropWhile isWS
      if p0.take 6 ≠ "scalar".toList then none
      else
        let p1 := (p0.drop 6).dropWhile isWS
        let p2 : List Char := match p1 with
          | ',' :: r => r
          | _ => p1
        let fp3 := consumeField p2 31
        let tc := strToTC fp3.1
        if tc = TC_UNKNOWN then none
        else
          let fp4 := consumeField fp3.2 31
          let off := u16 (atoiInt fp4.1)
          if OCH_BUF_SIZE ≤ off then none
          else
            let fp5 := consumeField fp4.2 11
            let fp6 := consumeField fp5.2 31
            let fp7 := consumeField fp6.2 31
            some { name := nm, unit := fp5.1, offset := off, tc := tc,
                   mul := atofQ fp6.1, add := atofQ fp7.1 }

/-- main.cpp `findChannelByName`: index of the first channel whose stored
name matches `nm` exactly (`none` is the `-1` result). -/
def findChannelByName (chs : List Channel) (nm : List Char) : Option Nat :=
  match chs with
  | [] => none
  | c :: rest =>
    if c.name = nm then some 0
    else (findChannelByName rest nm).map (· + 1)

/-- The mutable parser state of `parseINI` (`inOCH`/`inDL` section flags and
the global tables it fills in). -/
structure ParseState where
  inOCH : Bool
  inDL : Bool
  blockSize : Nat
  channels : List Channel
  dlChannels : List DLChannel
  deriving DecidableEq, Repr

/-- Parser state at the top of `parseINI` (tables reset, no active
section). -/
def iniInit : ParseState :=
  { inOCH := false, inDL := false, blockSize := 0, channels := [],
    dlChannels := [] }

/-- Processing of one `[Datalog]` `entry` line (`afterEq` is the text after
`=`): three comma fields, then a name lookup; unknown names are dropped. -/
def dlAdd (st : ParseState) (afterEq : List Char) : ParseState :=
  let fp1 := consumeField afterEq 23
  let fp2 := consumeField fp1.2 39
  let fp3 := consumeField fp2.2 7
  match findChannelByName st.channels fp1.1 with
  | some idx =>
    { st with dlChannels := st.dlChannels ++
        [{ label := fp2.1.take 39, chanIdx := idx,
           isFloat := fp3.1 = "float".toList }] }
  | none => st

/-- The `ochBlockSize` directive statement of the `parseINI` loop body:
only taken while `ochBlockSize == 0`, `atoi` of the text after `=`, cast to
`uint16_t`. -/
def stDirective (st : ParseState) (line : List Char) : ParseState :=
  if st.blockSize = 0 ∧ line.take 12 = "ochBlockSize".toList then
    match line.dropWhile (· ≠ '=') with
    | _ :: afterEq => { st with blockSize := u16 (atoiInt afterEq) }
    | [] => st
  else st

/-- The `[OutputChannels]` statement of the `parseINI` loop body: inside the
section and below `MAX_CHANNELS`, append a successfully parsed channel. -/
def stChannel (st : ParseState) (line : List Char) : ParseState :=
  if st.inOCH ∧ st.channels.length < MAX_CHANNELS then
    match parseChannelLine line with
    | some ch => { st with channels := st.channels ++ [ch] }
    | none => st
  else st

/-- The `[Datalog]` statement of the `parseINI` loop body: inside the
section, below `MAX_CHANNELS`, and on a line starting with `entry` and
containing `=`, run `dlAdd` on the text after `=`. -/
def stEntry (st : ParseState) (line : List Char) : ParseState :=
  if st.inDL ∧ st.dlChannels.length < MAX_CHANNELS
      ∧ line.take 5 = "entry".toList then
    match line.dropWhile (· ≠ '=') with
    | _ :: afterEq => dlAdd st afterEq
    | [] => st
  else st

/-- Line cleanup at the top of the `parseINI` loop body: strip the `;`
comment, trim trailing whitespace, trim leading blanks. -/
def lineOf (raw : List Char) : List Char :=
  (trimRight (raw.takeWhile (· ≠ ';'))).dropWhile isWS

/-- The body of the `while (readLine(...))` loop of `parseINI`: comment
stripping, trimming, section switching, then the directive / channel /
entry statements in source order. -/
def processLine (st : ParseState) (raw : List Char) : ParseState :=
  match lineOf raw with
  | [] => st
  | c :: _ =>
    if c = '[' then
      { st with inOCH := (lineOf raw).take 16 = "[OutputChannels]".toList,
                inDL := (lineOf raw).take 9 = "[Datalog]".toList }
    else
      stEntry (stChannel (stDirective st (lineOf raw)) (lineOf raw)) (lineOf raw)

/-- One char of main.cpp `readLine`: split on LF, drop CR, store at most 255
chars per line. -/
def splitLinesStep (st : List (List Char) × List Char) (c : Char) :
    List (List Char) × List Char :=
  if c = '\n' then (st.1 ++ [st.2], [])
  else if c = '\r' then st
  else (st.1, if st.2.length < 255 then st.2 ++ [c] else st.2)

/-- main.cpp `readLine` iterated to end of file: the final fragment after
the last LF is a line only if non-empty (`readLine` returns false there). -/
def splitLines (text : List Char) : List (List Char) :=
  let st := text.foldl splitLinesStep ([], [])
  if st.2 = [] then st.1 else st.1 ++ [st.2]

/-- The line loop of `parseINI`, started from the reset state. -/
def runLines (lines : List (List Char)) : ParseState :=
  lines.foldl processLine iniInit

/-- main.cpp `parseINI` on a file that opened successfully: run every line
through the loop body, then the end-of-parse validation; `none` is
`return false` (schema load fails). -/
def parseINI (text : List Char) : Option ParseState :=
  if (runLines (splitLines text)).blockSize = 0 then none
  else if OCH_BUF_SIZE < (runLines (splitLines text)).blockSize then none
  else if (runLines (splitLines text)).channels.length = 0 then none
  else some (runLines (splitLines text))

/-- C5 test schema: `blockSize = 8` but a channel at offset 2947 of width 2
(offset < `OCH_BUF_SIZE`, so the line is accepted). -/
def c5text : List Char :=
  "ochBlockSize = 8\n[OutputChannels]\nx = scalar, U16, 2947, \"u\", 1, 0\n".toList

/-- C6 test schema: a first `ochBlockSize` directive with value 0 followed
by a second one with value 5. -/
def c6text : List Char :=
  "ochBlockSize = 0\nochBlockSize = 5\n".toList

/-- C10 test line: a channel line whose name has 30 non-whitespace
characters before `=`. -/
def c10line : List Char :=
  "abcdefghijklmnopqrstuvwxyz1234 = scalar, U08, 0, \"u\", 1, 0".toList

/-! ## Row formatting (main.cpp `writeRow`) -/

/-- Three-digit zero-padded decimal rendering of the fractional part. -/
def pad3 (n : Nat) : List Char :=
  (if n < 10 then ['0', '0'] else if n < 100 then ['0'] else [])
    ++ Nat.toDigits 10 n

/-- Arduino `dtostrf(val, 1, 3, buf)` as called by `writeRow`: minimum
width 1 (no padding), exactly three decimals, the value rounded to the
nearest thousandth (ties away from zero), `-` prefix for negative values.
On the exact rational value, `round(|q| * 1000) = (|num|*2000 + den) /
(2*den)` in natural-number division. -/
def dtostrf3 (q : ℚ) : List Char :=
  let n : Nat := (q.num.natAbs * 2000 + q.den) / (2 * q.den)
  (if q.num < 0 then ['-'] else [])
    ++ Nat.toDigits 10 (n / 1000) ++ ['.'] ++ pad3 (n % 1000)

/-- One value cell of main.cpp `writeRow`: `dtostrf(val, 1, 3)` when the
value renders as float, otherwise `logFile.print((int32_t)val)` — the C
cast truncates toward zero. -/
def rowCell (asFloat : Bool) (val : ℚ) : List Char :=
  if asFloat then dtostrf3 val
  else
    (if Int.tdiv val.num (val.den : Int) < 0 then ['-'] else [])
      ++ Nat.toDigits 10 (Int.tdiv val.num (val.den : Int)).natAbs

/-! ## Session state machine (main.cpp `State`, `onDisconnect`, `loop`)

Timing, the transport, the SD card and the serial console are external
collaborators; one `loop()` iteration is modelled as a function of the
session fields the loop reads and writes, plus an input record carrying
what the collaborators would report in that iteration, returning the new
session plus the list of side effects requested. -/

inductive MState where
  | WaitDevice | AssertDTR | GetSignature | LoadINI
  | Logging | Stopped | ErrorSD | ErrorINI
  deriving DecidableEq, Repr

/-- The session fields of main.cpp that the state machine reads/writes
(`state`, `numChannels`, `numDLChannels`, `ochBlockSize`, `signature`,
`logOpen`). -/
structure Session where
  state : MState
  numChannels : Nat
  numDLChannels : Nat
  blockSize : Nat
  signature : List Char
  logOpen : Bool
  deriving DecidableEq, Repr

/-- Side effects one `loop()` iteration can request from collaborators. -/
inductive Action where
  | syncLog | closeLog | openLog | sendIdentify | sendModeSwitch
  | probeK | writeHeaderRow | writeDataRow | mtpReset
  deriving DecidableEq, Repr

/-- What the collaborators report during one `loop()` iteration: the `s`
serial command, transport presence, elapsed-timer flags, the identify
response (`none` = still empty), whether an identify retry is due, the
schema file content (`none` = no INI file found), and the poll/open/sync
oracle flags. -/
structure LoopInputs where
  stopCmd : Bool
  devicePresent : Bool
  settleElapsed : Bool
  sigResponse : Option (List Char)
  sigRetry : Bool
  iniText : Option (List Char)
  openLogOk : Bool
  pollElapsed : Bool
  pollOk : Bool
  syncElapsed : Bool
  deriving Repr

/-- main.cpp `onDisconnect`: close and flush the log if one is open, clear
the channel table, the output-channel table, `ochBlockSize` and the
signature, go to WaitDevice. -/
def onDisconnect (s : Session) : Session × List Action :=
  ({ state := MState.WaitDevice, numChannels := 0, numDLChannels := 0,
     blockSize := 0, signature := [], logOpen := false },
   if s.logOpen then [Action.syncLog, Action.closeLog] else [])

/-- One iteration of main.cpp `loop()`: the `s` command handler, the
`ErrorSD` early return, the disconnect check (skipped in `WaitDevice` and
`Stopped`), then the per-state `switch`. -/
def loopStep (s : Session) (inp : LoopInputs) : Session × List Action :=
  if inp.stopCmd then
    if s.state = MState.Logging then
      ({ s with state := MState.Stopped, logOpen := false },
        (if s.logOpen then [Action.syncLog, Action.closeLog] else [])
          ++ [Action.mtpReset])
    else ({ s with state := MState.Stopped }, [])
  else if s.state = MState.ErrorSD then (s, [])
  else if ¬ inp.devicePresent ∧ s.state ≠ MState.WaitDevice
      ∧ s.state ≠ MState.Stopped then
    onDisconnect s
  else
    match s.state with
    | MState.WaitDevice =>
      if inp.devicePresent then ({ s with state := MState.AssertDTR }, [])
      else (s, [])
    | MState.AssertDTR =>
      if inp.settleElapsed then
        ({ s with state := MState.GetSignature }, [Action.sendIdentify])
      else (s, [])
    | MState.GetSignature =>
      match inp.sigResponse with
      | some sig => ({ s with state := MState.LoadINI, signature := sig }, [])
      | none => if inp.sigRetry then (s, [Action.sendIdentify]) else (s, [])
    | MState.LoadINI =>
      match inp.iniText with
      | none => ({ s with state := MState.ErrorINI }, [])
      | some text =>
        if (parseINI text).isSome then
          if inp.openLogOk then
            ({ s with
                state := MState.Logging,
                logOpen := true,
                numChannels := (runLines (splitLines text)).channels.length,
                numDLChannels := (runLines (splitLines text)).dlChannels.length,
                blockSize := (runLines (splitLines text)).blockSize },
             [Action.sendModeSwitch, Action.probeK, Action.openLog,
              Action.writeHeaderRow])
          else
            ({ s with
                state := MState.ErrorINI,
                numChannels := (runLines (splitLines text)).channels.length,
                numDLChannels := (runLines (splitLines text)).dlChannels.length,
                blockSize := (runLines (splitLines text)).blockSize },
             [Action.sendModeSwitch, Action.probeK])
        else
          ({ s with
              state := MState.ErrorINI,
              numChannels := (runLines (splitLines text)).channels.length,
              numDLChannels := (runLines (splitLines text)).dlChannels.length,
              blockSize := (runLines (splitLines text)).blockSize }, [])
    | MState.Logging =>
      (s, (if inp.pollElapsed ∧ inp.pollOk then [Action.writeDataRow] else [])
        ++ (if s.logOpen ∧ inp.syncElapsed then [Action.syncLog] else []))
    | MState.Stopped => (s, [])
    | MState.ErrorSD => (s, [])
    | MState.ErrorINI => (s, [])

/-- C8 witness session: mid-logging with an open log. -/
def c8s : Session :=
  { state := MState.Logging, numChannels := 3, numDLChannels := 2,
    blockSize := 100, signature := "sig".toList, logOpen := true }

/-- C8 inputs: device absent, no command, nothing else pending. -/
def c8absent : LoopInputs :=
  { stopCmd := false, devicePresent := false, settleElapsed := false,
    sigResponse := none, sigRetry := false, iniText := none,
    openLogOk := false, pollElapsed := false, pollOk := false,
    syncElapsed := false }

/-- C8 counterexample session: the terminal SD-error state. -/
def c8sErrorSD : Session :=
  { state := MState.ErrorSD, numChannels := 0, numDLChannels := 0,
    blockSize := 0, signature := [], logOpen := false }

/-- C10 test schema (line level): the 30-char-name channel line plus a
`[Datalog]` entry referencing the 23-char truncation of that name. -/
def c10lines : List (List Char) :=
  ["ochBlockSize = 16".toList, "[OutputChannels]".toList, c10line,
   "[Datalog]".toList,
   "entry = abcdefghijklmnopqrstuvw, \"Lbl\", float, \"fmt\"".toList]

/-- The C3 test buffer: the little-endian int16 value -100 (0xFF9C) at
offset 10. -/
def c3buf : List Nat := List.replicate 10 0 ++ [0x9C, 0xFF]

/-- The C3 test channel: scale 0.1, bias 5.0, type S16, offset 10. -/
def c3chan : Channel :=
  { name := "test".toList, unit := "u".toList, offset := 10,
    tc := TC_S16, mul := 1 / 10, add := 5 }

end TSLogger

namespace TSLogger

open TypeCode

/-- `readLE` agrees with interpreting the extracted field little-endian
whenever the field lies inside the buffer. -/
theorem readLE_eq_interpLE (blob : List Nat) (off n : Nat)
    (h : off + n ≤ blob.length) :
    readLE blob off n = interpLE ((blob.drop off).take n) := by
  induction n generalizing off with
  | zero => simp [readLE, interpLE]
  | succ n ih =>
    have hoff : off < blob.length := by omega
    rw [List.drop_eq_getElem_cons hoff]
    rw [List.take_succ_cons]
    rw [readLE, interpLE]
    rw [List.getD_eq_getElem blob 0 hoff]
    have hdrop : blob.drop (off + 1) = (blob.drop off).tail := by
      rw [List.tail_drop]
    have : readLE blob (off + 1) n = interpLE ((blob.drop (off + 1)).take n) :=
      ih (off + 1) (by omega)
    rw [this, hdrop, List.drop_eq_getElem_cons hoff]

/-- Right shift by one distributes over XOR. -/
theorem xor_div_two (a b : Nat) : (a ^^^ b) / 2 = a / 2 ^^^ b / 2 := by
  have h : ∀ x : Nat, x / 2 = x >>> 1 := fun x => by
    simp [Nat.shiftRight_eq_div_pow]
  simp only [h]
  apply Nat.eq_of_testBit_eq
  intro i
  simp [Nat.testBit_shiftRight, Nat.testBit_xor]

/-- Parity of an XOR. -/
theorem xor_mod_two (a b : Nat) : (a ^^^ b) % 2 = if a % 2 = b % 2 then 0 else 1 := by
  rcases Nat.mod_two_eq_zero_or_one a with ha | ha <;>
    rcases Nat.mod_two_eq_zero_or_one b with hb | hb <;>
      simp [Nat.xor_mod_two_eq_one, ha, hb] <;> omega

/-- XOR-ing the message into the register and shifting commute: one
polynomial-division step on `crc ^^^ m` equals the spec's one-bit step on
the lowest bit of `m` followed by XOR-ing in the remaining shifted bits. -/
theorem crcBitStep_xor (crc m : Nat) :
    crcBitStep (crc ^^^ m) = crcRefBitStep crc (m % 2) ^^^ m / 2 := by
  unfold crcBitStep crcRefBitStep
  rw [xor_mod_two]
  have hm : m % 2 % 2 = m % 2 := Nat.mod_mod_of_dvd m dvd_rfl
  rw [hm]
  by_cases h : crc % 2 = m % 2
  · rw [if_pos h, if_neg (by simp [h]), if_pos h, xor_div_two]
  · rw [if_neg h, if_pos (by simp [h]), if_neg h, xor_div_two]
    rw [Nat.xor_assoc, Nat.xor_comm (m / 2) 0xEDB88320, ← Nat.xor_assoc]

/-- Folding the `n` lowest bits of `b` one at a time equals XOR-ing those
bits into the register and running `n` division steps (the byte-at-a-time
loop of the implementation). -/
theorem crcRefBits_eq (n : Nat) : ∀ crc b : Nat,
    crcRefBits n crc b = crcBitStep^[n] (crc ^^^ b % 2 ^ n) := by
  induction n with
  | zero => intro crc b; simp [crcRefBits, Nat.mod_one]
  | succ n ih =>
    intro crc b
    rw [crcRefBits, ih, Function.iterate_succ_apply]
    congr 1
    rw [crcBitStep_xor crc (b % 2 ^ (n + 1))]
    have h1 : b % 2 ^ (n + 1) % 2 = b % 2 :=
      Nat.mod_mod_of_dvd b (dvd_pow_self 2 (Nat.succ_ne_zero n))
    have h2 : b % 2 ^ (n + 1) / 2 = b / 2 % 2 ^ n := by
      rw [pow_succ, mul_comm, Nat.mod_mul_right_div_self]
    rw [h1, h2]

/-- On byte values the spec's bit-at-a-time update equals the
implementation's byte update. -/
theorem crcRefBits_eq_byteStep (crc b : Nat) (hb : b < 256) :
    crcRefBits 8 crc b = crcByteStep crc b := by
  rw [crcRefBits_eq]
  unfold crcByteStep
  have h28 : (2 : ℕ) ^ 8 = 256 := by norm_num
  rw [h28, Nat.mod_eq_of_lt hb]

/-- The two byte folds agree on byte sequences. -/
theorem foldl_crcRef_eq (data : List Nat) (h : ∀ b ∈ data, b < 256)
    (init : Nat) :
    data.foldl (fun crc b => crcRefBits 8 crc b) init =
      data.foldl crcByteStep init := by
  induction data generalizing init with
  | nil => rfl
  | cons x xs ih =>
    rw [List.foldl_cons, List.foldl_cons,
      crcRefBits_eq_byteStep init x (h x (List.mem_cons_self x xs))]
    exact ih (fun b hb => h b (List.mem_cons_of_mem x hb)) _

set_option maxRecDepth 8000 in
/-- C1: `crc32` implements CRC-32/ISO-HDLC — on every byte sequence it
agrees with the spec-level bit-at-a-time formulation (polynomial 0xEDB88320
LSB-first, register initialised to all-ones, final value complemented) —
and in particular on the nine ASCII bytes of "123456789" it returns
0xCBF43926. -/
theorem c1_crc32_iso_hdlc :
    (∀ data, (∀ b ∈ data, b < 256) → crc32 data = crc32_iso_hdlc data) ∧
    crc32 crcTestVector = 0xCBF43926 := by
  constructor
  · intro data h
    unfold crc32 crc32_iso_hdlc
    rw [foldl_crcRef_eq data h]
  · decide

set_option maxRecDepth 8000 in
/-- Witness for C1: both formulations evaluated on the standard test
vector. -/
theorem c1_witness :
    crc32 crcTestVector = crc32_iso_hdlc crcTestVector ∧
    crc32 crcTestVector = 0xCBF43926 :=
  ⟨c1_crc32_iso_hdlc.1 crcTestVector (by decide), c1_crc32_iso_hdlc.2⟩

/-- C2: a telemetry poll succeeds iff at least `blockSize + 3` bytes arrive
before the deadline and the third received byte (the status byte) is 0x00;
on success exactly `blockSize` data bytes starting at the fourth received
byte are returned (copied to `ochBuffer`); every other outcome is a failure
and this layer performs no retry (`requestOCH` makes a single receive
attempt). -/
theorem c2_requestOCH_success_iff (blockSize : Nat) (avail : List Nat) :
    ((requestOCH blockSize avail).isSome ↔
      (blockSize + 3 ≤ avail.length ∧ avail.getD 2 255 = 0)) ∧
    (∀ d, requestOCH blockSize avail = some d →
      d = (avail.drop 3).take blockSize) := by
  have hlen : (avail.take (blockSize + 7)).length = min (blockSize + 7) avail.length :=
    List.length_take _ _
  have hle : blockSize + 3 ≤ blockSize + 7 := by omega
  constructor
  · unfold requestOCH
    simp only
    by_cases hc : blockSize + 3 ≤ (avail.take (blockSize + 7)).length ∧
        (avail.take (blockSize + 7)).getD 2 255 = 0
    · have hne : (avail.take (blockSize + 7)).length ≠ 0 := by omega
      rw [if_neg hne, if_pos hc]
      simp only [Option.isSome_some, true_iff]
      obtain ⟨h1, h2⟩ := hc
      have hla : blockSize + 3 ≤ avail.length := by
        rw [hlen] at h1; omega
      refine ⟨hla, ?_⟩
      have h2' : 2 < blockSize + 7 := by omega
      have : (avail.take (blockSize + 7)).getD 2 255 = avail.getD 2 255 := by
        simp only [List.getD_eq_getElem?_getD, List.getElem?_take_of_lt h2']
      rw [← this]; exact h2
    · have hnone : (if (avail.take (blockSize + 7)).length = 0 then
          (none : Option (List Nat))
        else if blockSize + 3 ≤ (avail.take (blockSize + 7)).length ∧
            (avail.take (blockSize + 7)).getD 2 255 = 0 then
          some (((avail.take (blockSize + 7)).drop 3).take blockSize)
        else none) = none := by
        by_cases hz : (avail.take (blockSize + 7)).length = 0
        · rw [if_pos hz]
        · rw [if_neg hz, if_neg hc]
      rw [hnone]
      simp only [Option.isSome_none, Bool.false_eq_true, false_iff]
      intro ⟨h1, h2⟩
      apply hc
      constructor
      · rw [hlen]; omega
      · have h2' : 2 < blockSize + 7 := by omega
        have : (avail.take (blockSize + 7)).getD 2 255 = avail.getD 2 255 := by
          simp only [List.getD_eq_getElem?_getD, List.getElem?_take_of_lt h2']
        rw [this]; exact h2
  · intro d hd
    unfold requestOCH at hd
    simp only at hd
    by_cases hz : (avail.take (blockSize + 7)).length = 0
    · rw [if_pos hz] at hd; exact absurd hd (by simp)
    · rw [if_neg hz] at hd
      by_cases hc : blockSize + 3 ≤ (avail.take (blockSize + 7)).length ∧
          (avail.take (blockSize + 7)).getD 2 255 = 0
      · rw [if_pos hc] at hd
        have hd' := Option.some.inj hd
        rw [← hd']
        rw [List.drop_take]
        rw [List.take_take]
        congr 1
        omega
      · rw [if_neg hc] at hd; exact absurd hd (by simp)

/-- Witness for C2: concrete poll with `blockSize = 1` and a full-length
response with status 0; exactly one data byte (the fourth) is returned. -/
theorem c2_witness :
    requestOCH 1 [0, 2, 0, 9, 7, 7, 7, 7] = some [9] ∧
    [9] = (List.drop 3 [0, 2, 0, 9, 7, 7, 7, 7]).take 1 :=
  ⟨by decide, (c2_requestOCH_success_iff 1 [0, 2, 0, 9, 7, 7, 7, 7]).2 [9] (by decide)⟩

end TSLogger

namespace TSLogger

open TypeCode

/-- C3: for every channel with a valid type code whose field lies inside the
buffer, `decodeChannel` equals the spec-level decode (width bytes at the
channel's offset, little-endian, then `raw * scale + bias`); and on a buffer
holding little-endian int16 -100 at offset 10 with scale 0.1 and bias 5.0 it
returns -5. -/
theorem c3_decodeChannel_refines :
    (∀ blob ch, ch.tc ≠ TC_UNKNOWN → ch.offset + width ch.tc ≤ blob.length →
      decodeChannel blob ch = decode_spec blob ch) ∧
    decodeChannel c3buf c3chan = -5 := by
  constructor
  · intro blob ch htc h
    cases hc : ch.tc with
    | TC_U08 =>
      unfold decodeChannel decode_spec
      simp only [hc, width]
      rw [readLE_eq_interpLE blob ch.offset 1 (by simpa [hc, width] using h)]
    | TC_S08 =>
      unfold decodeChannel decode_spec
      simp only [hc, width]
      rw [readLE_eq_interpLE blob ch.offset 1 (by simpa [hc, width] using h)]
    | TC_U16 =>
      unfold decodeChannel decode_spec
      simp only [hc, width]
      rw [readLE_eq_interpLE blob ch.offset 2 (by simpa [hc, width] using h)]
    | TC_S16 =>
      unfold decodeChannel decode_spec
      simp only [hc, width]
      rw [readLE_eq_interpLE blob ch.offset 2 (by simpa [hc, width] using h)]
    | TC_U32 =>
      unfold decodeChannel decode_spec
      simp only [hc, width]
      rw [readLE_eq_interpLE blob ch.offset 4 (by simpa [hc, width] using h)]
    | TC_S32 =>
      unfold decodeChannel decode_spec
      simp only [hc, width]
      rw [readLE_eq_interpLE blob ch.offset 4 (by simpa [hc, width] using h)]
    | TC_F32 =>
      unfold decodeChannel decode_spec
      simp only [hc, width]
      rw [readLE_eq_interpLE blob ch.offset 4 (by simpa [hc, width] using h)]
    | TC_UNKNOWN => exact absurd hc htc
  · have h : readLE c3buf 10 2 = 65436 := by decide
    unfold decodeChannel c3chan
    simp only [h]
    norm_num [toSigned]

/-- Witness for C3: the refinement instantiated on the concrete -100/int16
buffer and channel. -/
theorem c3_witness : decodeChannel c3buf c3chan = decode_spec c3buf c3chan :=
  c3_decodeChannel_refines.1 c3buf c3chan (by decide) (by decide)

end TSLogger

namespace TSLogger

open TypeCode

/-- `dlAdd` never touches `ochBlockSize`. -/
theorem dlAdd_blockSize (st : ParseState) (a : List Char) :
    (dlAdd st a).blockSize = st.blockSize := by
  simp only [dlAdd]; split <;> rfl

/-- `dlAdd` never touches the channel table. -/
theorem dlAdd_channels (st : ParseState) (a : List Char) :
    (dlAdd st a).channels = st.channels := by
  simp only [dlAdd]; split <;> rfl

/-- The directive statement never touches the channel table. -/
theorem stDirective_channels (st : ParseState) (l : List Char) :
    (stDirective st l).channels = st.channels := by
  unfold stDirective
  split_ifs
  · split <;> rfl
  · rfl

/-- The directive statement never touches the output-channel table. -/
theorem stDirective_dlChannels (st : ParseState) (l : List Char) :
    (stDirective st l).dlChannels = st.dlChannels := by
  unfold stDirective
  split_ifs
  · split <;> rfl
  · rfl

/-- Once `ochBlockSize` is non-zero the directive statement is inert. -/
theorem stDirective_blockSize_ne (st : ParseState) (l : List Char)
    (h : st.blockSize ≠ 0) : (stDirective st l).blockSize = st.blockSize := by
  unfold stDirective
  rw [if_neg (fun hc => h hc.1)]

/-- The channel statement never touches `ochBlockSize`. -/
theorem stChannel_blockSize (st : ParseState) (l : List Char) :
    (stChannel st l).blockSize = st.blockSize := by
  unfold stChannel
  split_ifs
  · split <;> rfl
  · rfl

/-- The channel statement never touches the output-channel table. -/
theorem stChannel_dlChannels (st : ParseState) (l : List Char) :
    (stChannel st l).dlChannels = st.dlChannels := by
  unfold stChannel
  split_ifs
  · split <;> rfl
  · rfl

/-- The channel statement leaves the channel table unchanged or appends one
channel successfully parsed from the line. -/
theorem stChannel_channels_cases (st : ParseState) (l : List Char) :
    (stChannel st l).channels = st.channels ∨
    ∃ ch, parseChannelLine l = some ch ∧
      (stChannel st l).channels = st.channels ++ [ch] := by
  unfold stChannel
  split_ifs
  · split
    · next ch heq => right; exact ⟨ch, heq, rfl⟩
    · left; rfl
  · left; rfl

/-- The entry statement never touches the channel table. -/
theorem stEntry_channels (st : ParseState) (l : List Char) :
    (stEntry st l).channels = st.channels := by
  unfold stEntry
  split_ifs
  · split
    · exact dlAdd_channels _ _
    · rfl
  · rfl

/-- The entry statement never touches `ochBlockSize`. -/
theorem stEntry_blockSize (st : ParseState) (l : List Char) :
    (stEntry st l).blockSize = st.blockSize := by
  unfold stEntry
  split_ifs
  · split
    · exact dlAdd_blockSize _ _
    · rfl
  · rfl

/-- A successful `findChannelByName` returns an in-range index. -/
theorem findChannelByName_lt (chs : List Channel) (nm : List Char) (i : Nat)
    (h : findChannelByName chs nm = some i) : i < chs.length := by
  induction chs generalizing i with
  | nil => exact Option.noConfusion h
  | cons c rest ih =>
    unfold findChannelByName at h
    split_ifs at h
    · cases h; simp
    · obtain ⟨j, hj, rfl⟩ := Option.map_eq_some'.mp h
      have := ih j hj
      simp only [List.length_cons]
      omega

/-- The entry statement leaves the output-channel table unchanged or appends
one entry whose channel index is in range. -/
theorem stEntry_dl_cases (st : ParseState) (l : List Char) :
    (stEntry st l).dlChannels = st.dlChannels ∨
    ∃ d, (stEntry st l).dlChannels = st.dlChannels ++ [d] ∧
      d.chanIdx < st.channels.length := by
  unfold stEntry
  split_ifs
  · split
    · simp only [dlAdd]
      split
      · next idx heq =>
        right
        exact ⟨_, rfl, findChannelByName_lt _ _ _ heq⟩
      · left; rfl
    · left; rfl
  · left; rfl

/-- `processLine` never changes a non-zero `ochBlockSize`. -/
theorem processLine_blockSize_ne (st : ParseState) (raw : List Char)
    (h : st.blockSize ≠ 0) : (processLine st raw).blockSize = st.blockSize := by
  unfold processLine
  split
  · rfl
  · split_ifs
    · rfl
    · rw [stEntry_blockSize, stChannel_blockSize, stDirective_blockSize_ne _ _ h]

/-- C6 counterexample: in a schema whose first `ochBlockSize` directive has
value 0 and whose second has value 5, the final `blockSize` is 5 — the value
of the later occurrence took effect (the guard is `ochBlockSize == 0`, not
"first occurrence"), contradicting the claim that any later occurrence is
ignored. -/
theorem c6_counterexample :
    (runLines ((splitLines c6text).take 1)).blockSize = 0 ∧
    (runLines (splitLines c6text)).blockSize = 5 := by decide

/-- C6 amended: once `blockSize` holds a non-zero value, every later line —
in particular every later `ochBlockSize` directive — leaves it unchanged;
i.e. the first occurrence that sets a non-zero value wins, and occurrences
seen while `blockSize` is still 0 (e.g. after a first directive whose value
parsed as 0) do take effect. -/
theorem c6_later_directives_ignored (st : ParseState) (lines : List (List Char))
    (h : st.blockSize ≠ 0) :
    (lines.foldl processLine st).blockSize = st.blockSize := by
  induction lines generalizing st with
  | nil => rfl
  | cons l ls ih =>
    rw [List.foldl_cons]
    have h1 : (processLine st l).blockSize = st.blockSize :=
      processLine_blockSize_ne st l h
    rw [ih (processLine st l) (by rw [h1]; exact h), h1]

/-- Witness for C6 (amended): a state with `blockSize = 7` is unchanged by a
further `ochBlockSize = 9` directive line. -/
theorem c6_witness :
    (([("ochBlockSize = 9".toList)]).foldl processLine
      { iniInit with blockSize := 7 }).blockSize = 7 :=
  c6_later_directives_ignored { iniInit with blockSize := 7 } _ (by decide)

/-- C4: for a schema file that opens, the whole parse fails (`parseINI`
returns `none`) iff at end of parse `blockSize = 0`, or
`blockSize > OCH_BUF_SIZE`, or no channel was parsed; failure is decided
only by this end-of-parse validation, so malformed individual lines (which
only affect the folded state) never fail the parse by themselves. -/
theorem c4_parse_fatal_iff (text : List Char) :
    parseINI text = none ↔
      ((runLines (splitLines text)).blockSize = 0 ∨
        OCH_BUF_SIZE < (runLines (splitLines text)).blockSize ∨
        (runLines (splitLines text)).channels = []) := by
  unfold parseINI
  split_ifs with h1 h2 h3
  · simp [h1]
  · simp [h2]
  · simp [List.length_eq_zero.mp h3]
  · constructor
    · intro h; exact h.elim
    · rintro (h | h | h)
      · exact absurd h h1
      · exact absurd h h2
      · exact absurd (by rw [h]; rfl) h3

end TSLogger

namespace TSLogger

open TypeCode

/-- Every channel accepted by `parseChannelLine` has `offset < OCH_BUF_SIZE`
(the guard is `offset >= OCH_BUF_SIZE → reject`). -/
theorem parseChannelLine_offset_lt (line : List Char) (ch : Channel)
    (h : parseChannelLine line = some ch) : ch.offset < OCH_BUF_SIZE := by
  simp only [parseChannelLine] at h
  split at h
  · cases h
  · split_ifs at h with h1 h2 h3 h4
    cases h
    exact lt_of_not_le h4

/-- The channel statement can only grow the channel table. -/
theorem stChannel_channels_len_le (st : ParseState) (l : List Char) :
    st.channels.length ≤ (stChannel st l).channels.length := by
  rcases stChannel_channels_cases st l with hc | ⟨ch, _, hc⟩ <;> simp [hc]

/-- One loop iteration preserves "every stored offset is below the buffer
capacity". -/
theorem processLine_offsets (st : ParseState) (raw : List Char)
    (h : ∀ ch ∈ st.channels, ch.offset < OCH_BUF_SIZE) :
    ∀ ch ∈ (processLine st raw).channels, ch.offset < OCH_BUF_SIZE := by
  unfold processLine
  split
  · exact h
  · split_ifs
    · exact h
    · rw [stEntry_channels]
      rcases stChannel_channels_cases (stDirective st (lineOf raw)) (lineOf raw)
        with hc | ⟨ch, hch, hc⟩
      · rw [hc, stDirective_channels]; exact h
      · rw [hc, stDirective_channels]
        intro c hmem
        rcases List.mem_append.mp hmem with hm | hm
        · exact h c hm
        · rw [List.mem_singleton.mp hm]
          exact parseChannelLine_offset_lt _ _ hch

/-- The offset invariant, folded over all lines. -/
theorem runLines_offsets_aux (lines : List (List Char)) (st : ParseState)
    (h : ∀ ch ∈ st.channels, ch.offset < OCH_BUF_SIZE) :
    ∀ ch ∈ (lines.foldl processLine st).channels, ch.offset < OCH_BUF_SIZE := by
  induction lines generalizing st with
  | nil => exact h
  | cons l ls ih => rw [List.foldl_cons]; exact ih _ (processLine_offsets _ _ h)

set_option maxRecDepth 100000 in
/-- C5 counterexample: in an accepted schema with `blockSize = 8` the parser
accepts a channel at offset 2947 of width 2, so the claimed invariant
`offset + width(typeCode) ≤ blockSize` is violated by an accepted
ChannelDescriptor (the code checks `offset < OCH_BUF_SIZE`, not the claimed
bound). -/
theorem c5_counterexample :
    (parseINI c5text).isSome = true ∧
    ¬ (∀ ch ∈ (runLines (splitLines c5text)).channels,
        ch.offset + width ch.tc ≤ (runLines (splitLines c5text)).blockSize) := by
  constructor
  · decide
  · intro hall
    have hb : ((runLines (splitLines c5text)).channels.all
        fun ch => ch.offset + width ch.tc ≤
          (runLines (splitLines c5text)).blockSize) = false := by decide
    have ht := List.all_eq_true.mpr fun ch hch => decide_eq_true (hall ch hch)
    rw [hb] at ht
    exact Bool.false_ne_true ht

/-- C5 amended: every ChannelDescriptor accepted into the channel table
satisfies `offset < OCH_BUF_SIZE` (the buffer capacity); a channel line
violating this is rejected individually (`parseChannelLine` returns false),
without making the whole parse fail. -/
theorem c5_offsets_below_capacity (lines : List (List Char)) :
    ((runLines lines).channels.all fun ch => ch.offset < OCH_BUF_SIZE) = true := by
  rw [List.all_eq_true]
  intro ch hch
  refine decide_eq_true (runLines_offsets_aux lines iniInit ?_ ch hch)
  intro c hc
  simp [iniInit] at hc

/-- One loop iteration preserves "every output-channel index is in range of
the channel table". -/
theorem processLine_dl_inv (st : ParseState) (raw : List Char)
    (h : ∀ dl ∈ st.dlChannels, dl.chanIdx < st.channels.length) :
    ∀ dl ∈ (processLine st raw).dlChannels,
      dl.chanIdx < (processLine st raw).channels.length := by
  unfold processLine
  split
  · exact h
  · split_ifs
    · exact h
    · intro dl hdl
      rw [stEntry_channels]
      have hlen : st.channels.length ≤
          (stChannel (stDirective st (lineOf raw)) (lineOf raw)).channels.length := by
        have h1 : st.channels.length =
            (stDirective st (lineOf raw)).channels.length := by
          rw [stDirective_channels]
        rw [h1]
        exact stChannel_channels_len_le _ _
      rcases stEntry_dl_cases (stChannel (stDirective st (lineOf raw)) (lineOf raw))
          (lineOf raw) with he | ⟨d, he, hd⟩
      · rw [he, stChannel_dlChannels, stDirective_dlChannels] at hdl
        exact lt_of_lt_of_le (h dl hdl) hlen
      · rw [he] at hdl
        rcases List.mem_append.mp hdl with hm | hm
        · rw [stChannel_dlChannels, stDirective_dlChannels] at hm
          exact lt_of_lt_of_le (h dl hm) hlen
        · rw [List.mem_singleton.mp hm]
          exact hd

/-- The index invariant, folded over all lines. -/
theorem runLines_dl_aux (lines : List (List Char)) (st : ParseState)
    (h : ∀ dl ∈ st.dlChannels, dl.chanIdx < st.channels.length) :
    ∀ dl ∈ (lines.foldl processLine st).dlChannels,
      dl.chanIdx < (lines.foldl processLine st).channels.length := by
  induction lines generalizing st with
  | nil => exact h
  | cons l ls ih => rw [List.foldl_cons]; exact ih _ (processLine_dl_inv _ _ h)

/-- C9: after every parse, every output-channel entry references a valid
channel-table slot (`chanIdx < numChannels`); header and row writing, which
index `channels[]` through `dlChannels[i].chanIdx`, therefore never index
the channel table out of bounds. -/
theorem c9_dl_indices_in_range (lines : List (List Char)) :
    ((runLines lines).dlChannels.all
      fun dl => dl.chanIdx < (runLines lines).channels.length) = true := by
  rw [List.all_eq_true]
  intro dl hdl
  refine decide_eq_true (runLines_dl_aux lines iniInit ?_ dl hdl)
  intro d hd
  simp [iniInit] at hd

/-- The name-copy loop stores exactly the first 23 non-blank characters of
the text before `=`. -/
theorem copyName_eq_filter (l : List Char) (k : Nat) :
    copyName l k = (l.filter fun c => !(isWS c)).take k := by
  induction l generalizing k with
  | nil => cases k <;> rfl
  | cons c cs ih =>
    cases k with
    | zero => rfl
    | succ k =>
      by_cases hw : isWS c = true
      · simp [copyName, hw, List.filter_cons, ih]
      · have hw' : isWS c = false := by revert hw; cases isWS c <;> simp
        simp [copyName, hw', List.filter_cons, ih]

/-- An accepted channel's stored name is the 23-char truncation of the
non-blank characters before `=`. -/
theorem parseChannelLine_name (line : List Char) (ch : Channel)
    (h : parseChannelLine line = some ch) :
    ch.name = ((line.takeWhile (· ≠ '=')).filter fun c => !(isWS c)).take 23 := by
  simp only [parseChannelLine] at h
  split at h
  · cases h
  · split_ifs at h with h1 h2 h3 h4
    cases h
    exact copyName_eq_filter _ _

/-- C10: an over-long channel name does not reject the line — the stored
name is silently truncated to the first 23 non-whitespace characters before
`=`; and in a full parse an output-ordering `entry` naming the truncated
23-char name resolves to that channel (index 0), i.e. lookups match the
truncated name. -/
theorem c10_name_truncation :
    (∀ line, (parseChannelLine line).isSome = true →
      (parseChannelLine line).map Channel.name =
        some (((line.takeWhile (· ≠ '=')).filter fun c => !(isWS c)).take 23)) ∧
    (runLines c10lines).dlChannels.map DLChannel.chanIdx = [0] := by
  constructor
  · intro line h
    obtain ⟨ch, hch⟩ := Option.isSome_iff_exists.mp h
    rw [hch, Option.map_some']
    rw [parseChannelLine_name line ch hch]
  · decide

/-- Witness for C10: the 30-char-name line is accepted and its stored name
is the 23-char truncation. -/
theorem c10_witness :
    (parseChannelLine c10line).map Channel.name =
      some (((c10line.takeWhile (· ≠ '=')).filter fun c => !(isWS c)).take 23) :=
  c10_name_truncation.1 c10line (by decide)

end TSLogger

namespace TSLogger

/-- C7 counterexample: `writeRow` renders floats with `dtostrf(val, 1, 3)`
and never strips trailing zeros or a dangling decimal point — the value
2400.0 is written as `2400.000`, not `2400` as the claim states. -/
theorem c7_counterexample :
    rowCell true (2400 : ℚ) ≠ "2400".toList ∧
    rowCell true (2400 : ℚ) = "2400.000".toList := by
  constructor
  · decide
  · decide

/-- C7 amended: every floating-point value in row output is rendered at
fixed 3-decimal precision with trailing zeros kept (no stripping): 2400.0
renders as `2400.000`, 14.5 as `14.500`, 0.0 as `0.000`. -/
theorem c7_fixed_three_decimals :
    rowCell true (2400 : ℚ) = "2400.000".toList ∧
    rowCell true ((29 : ℚ) / 2) = "14.500".toList ∧
    rowCell true (0 : ℚ) = "0.000".toList := by
  refine ⟨by decide, ?_, by decide⟩
  have h : (29 : ℚ) / 2 = (⟨29, 2, by decide, by decide⟩ : ℚ) := by
    rw [Rat.mk'_eq_divInt, Rat.divInt_eq_div]
    norm_num
  rw [h]
  decide

/-- C8 amended: when the transport reports the device absent and no stop
command arrives in the same iteration, from every state other than
WaitDevice, Stopped and ErrorSD the step closes and flushes the log if one
is open, clears the schema state (channel table, output-channel table,
block size) and the signature, and goes to WaitDevice; the step never locks
up or escalates — device absence is not fatal. -/
theorem c8_disconnect_recovers (s : Session) (inp : LoopInputs)
    (hcmd : inp.stopCmd = false) (habs : inp.devicePresent = false)
    (h1 : s.state ≠ MState.WaitDevice) (h2 : s.state ≠ MState.Stopped)
    (h3 : s.state ≠ MState.ErrorSD) :
    (loopStep s inp).1.state = MState.WaitDevice ∧
    (loopStep s inp).1.numChannels = 0 ∧
    (loopStep s inp).1.numDLChannels = 0 ∧
    (loopStep s inp).1.blockSize = 0 ∧
    (loopStep s inp).1.signature = [] ∧
    (loopStep s inp).1.logOpen = false ∧
    (s.logOpen = true →
      (loopStep s inp).2 = [Action.syncLog, Action.closeLog]) := by
  have hstep : loopStep s inp = onDisconnect s := by
    unfold loopStep
    rw [if_neg (by simp [hcmd]), if_neg h3, if_pos ⟨by simp [habs], h1, h2⟩]
  rw [hstep]
  unfold onDisconnect
  refine ⟨rfl, rfl, rfl, rfl, rfl, rfl, fun hlo => ?_⟩
  simp [hlo]

/-- Witness for C8 (amended): a logging session with an open log, device
absent — the step flushes, closes, clears and returns to WaitDevice. -/
theorem c8_witness :
    (loopStep c8s c8absent).1.state = MState.WaitDevice ∧
    (loopStep c8s c8absent).1.numChannels = 0 ∧
    (loopStep c8s c8absent).1.numDLChannels = 0 ∧
    (loopStep c8s c8absent).1.blockSize = 0 ∧
    (loopStep c8s c8absent).1.signature = [] ∧
    (loopStep c8s c8absent).1.logOpen = false ∧
    (c8s.logOpen = true →
      (loopStep c8s c8absent).2 = [Action.syncLog, Action.closeLog]) :=
  c8_disconnect_recovers c8s c8absent (by decide) (by decide) (by decide)
    (by decide) (by decide)

/-- C8 counterexample: `loop()` returns before the disconnect check while in
`ErrorSD`, so with the device absent in state ErrorSD — a state that is
neither WaitDevice nor Stopped — the step does not transition to WaitDevice,
contradicting the claim read over all non-WaitDevice, non-Stopped states. -/
theorem c8_counterexample :
    (loopStep c8sErrorSD c8absent).1.state = MState.ErrorSD ∧
    MState.ErrorSD ≠ MState.WaitDevice := by
  constructor
  · decide
  · decide

end TSLogger
